import Mathlib

/-!
Shallow embedding of the note-hammer Android automation engine
(`src/note_hammer/android_automation.py`, class `AndroidKindleAutomator`)
together with theorems settling the specification claims about it.

Modelling conventions:
* A UI element (dataclass `UIElement`) is a record of its tap centre and text.
* The per-book export outcome as observed by the run coordinator is a value
  of `BookOutcome` (success / failure / unexpected exception during the item).
* `get_visible_books` results across scroll iterations are modelled as a
  stream `pages : Nat → List UIElement`: `pages k` is what is visible after
  `k` scroll gestures.
* Device side effects (taps, swipes, sleeps, logging) are dropped; the
  functions below compute exactly the control flow and data of the source.
-/

namespace NoteHammer

/-- Model of the Python dataclass `UIElement` (android_automation.py lines
13-20); only the tap centre and the text matter to the claims. -/
structure UIElement where
  x : Nat
  y : Nat
  text : String
deriving DecidableEq, Repr

/-- Model of the `export_stats` dictionary maintained by
`export_collection_notes` (lines 804-810): attempted / successful / failed
counters plus the ordered list of failed book titles. -/
structure ExportStats where
  attempted : Nat
  successful : Nat
  failed : Nat
  failed_books : List String
deriving DecidableEq, Repr

/-- The freshly reset statistics record (lines 805-810). -/
def emptyStats : ExportStats := ⟨0, 0, 0, []⟩

/-- Outcome of processing one book inside the per-book loop of
`export_collection_notes` (lines 839-861): the retry wrapper returned True,
returned False, or an unexpected exception was caught. -/
inductive BookOutcome where
  | success
  | failure
  | error
deriving DecidableEq, Repr

/-- One pass of the per-book loop body of `export_collection_notes`
(lines 844-861): `attempted` is incremented, then either `successful` is
incremented, or `failed` is incremented and the title is appended to
`failed_books` (both on a False return and on a caught exception). -/
def recordOutcome (stats : ExportStats) (title : String) (o : BookOutcome) : ExportStats :=
  let stats := { stats with attempted := stats.attempted + 1 }
  match o with
  | .success => { stats with successful := stats.successful + 1 }
  | .failure => { stats with failed := stats.failed + 1,
                             failed_books := stats.failed_books ++ [title] }
  | .error => { stats with failed := stats.failed + 1,
                           failed_books := stats.failed_books ++ [title] }

/-- The `for i, book in enumerate(books, 1)` loop of
`export_collection_notes` (lines 839-869), folding `recordOutcome` over the
book list. -/
def runBooks (outcome : UIElement → BookOutcome) (books : List UIElement)
    (stats : ExportStats) : ExportStats :=
  books.foldl (fun s b => recordOutcome s b.text (outcome b)) stats

/-- Model of `export_collection_notes` (lines 796-883) with navigation and
enumeration abstracted into parameters: stats are reset, a failed
`navigate_to_collection` returns the empty stats, an empty book list returns
the empty stats, otherwise the per-book loop runs over all books. -/
def export_collection_notes (navOk : Bool) (books : List UIElement)
    (outcome : UIElement → BookOutcome) : ExportStats :=
  if navOk then
    if books.isEmpty then emptyStats
    else runBooks outcome books emptyStats
  else emptyStats

/-- The invariant claimed for the statistics record. -/
def statsInvariant (s : ExportStats) : Prop :=
  s.attempted = s.successful + s.failed ∧ s.failed_books.length = s.failed

instance (s : ExportStats) : Decidable (statsInvariant s) := by
  unfold statsInvariant; infer_instance

theorem recordOutcome_invariant (s : ExportStats) (title : String) (o : BookOutcome)
    (h : statsInvariant s) : statsInvariant (recordOutcome s title o) := by
  obtain ⟨h1, h2⟩ := h
  cases o <;> simp [recordOutcome, statsInvariant, h1, h2] <;> omega

theorem runBooks_invariant (outcome : UIElement → BookOutcome) (books : List UIElement)
    (stats : ExportStats) (h : statsInvariant stats) :
    statsInvariant (runBooks outcome books stats) := by
  induction books generalizing stats with
  | nil => simpa [runBooks] using h
  | cons b rest ih =>
      simpa [runBooks] using ih _ (recordOutcome_invariant stats b.text (outcome b) h)

theorem emptyStats_invariant : statsInvariant emptyStats := by
  constructor <;> rfl

/-- C1: for every run of the coordinator (`export_collection_notes`), the
statistics satisfy `attempted == successful + failed` and
`len(failed_books) == failed` after each per-item outcome is recorded (the
state after the first `n` items is `runBooks` over `books.take n`), and at
the end of every run, including runs that recorded no items. -/
theorem C1_stats_invariant (navOk : Bool) (books : List UIElement)
    (outcome : UIElement → BookOutcome) :
    (∀ n : Nat, statsInvariant (runBooks outcome (books.take n) emptyStats)) ∧
    statsInvariant (export_collection_notes navOk books outcome) := by
  constructor
  · intro n; exact runBooks_invariant outcome (books.take n) emptyStats emptyStats_invariant
  · unfold export_collection_notes
    cases navOk with
    | false => simpa using emptyStats_invariant
    | true =>
        by_cases h : books.isEmpty = true
        · simpa [h] using emptyStats_invariant
        · simpa [h] using runBooks_invariant outcome books emptyStats emptyStats_invariant

/-- Loop body of `export_book_notes_with_retry` (lines 784-794): the Python
`for attempt in range(self.retry_attempts)` with `fuel` attempts remaining
and `count` invocations of `export_book_notes` already made.  The workflow
is modelled as `workflow : Nat → Bool`, giving the result of the attempt
with that index.  Returns the Boolean result together with the total number
of invocations of the per-item workflow. -/
def retryLoop (workflow : Nat → Bool) : Nat → Nat → Bool × Nat
  | 0, count => (false, count)
  | Nat.succ fuel, count =>
      if workflow count then (true, count + 1)
      else retryLoop workflow fuel (count + 1)

/-- Model of `export_book_notes_with_retry` (lines 784-794): run the
per-item workflow up to `retry_attempts` times, returning True on the first
success and False when every attempt failed; also reports how many times the
per-item function was invoked. -/
def export_book_notes_with_retry (workflow : Nat → Bool) (retry_attempts : Nat) :
    Bool × Nat :=
  retryLoop workflow retry_attempts 0

/-- The per-book outcome that `export_collection_notes` observes when the
book is processed through `export_book_notes_with_retry` and no exception
escapes (lines 847-853). -/
def outcomeOfRetry (workflow : Nat → Bool) (retry_attempts : Nat)
    (_book : UIElement) : BookOutcome :=
  if (export_book_notes_with_retry workflow retry_attempts).1 then .success else .failure

theorem retryLoop_count_le (workflow : Nat → Bool) (fuel count : Nat) :
    (retryLoop workflow fuel count).2 ≤ count + fuel := by
  induction fuel generalizing count with
  | zero => simp [retryLoop]
  | succ n ih =>
      unfold retryLoop
      by_cases h : workflow count = true
      · rw [h]
        simp only [if_true]
        show count + 1 ≤ count + (n + 1)
        omega
      · rw [if_neg h]
        have := ih (count + 1)
        omega

theorem retryLoop_all_false (workflow : Nat → Bool)
    (hw : ∀ i, workflow i = false) (fuel count : Nat) :
    retryLoop workflow fuel count = (false, count + fuel) := by
  induction fuel generalizing count with
  | zero => simp [retryLoop]
  | succ n ih =>
      unfold retryLoop
      rw [hw count]
      simp [ih (count + 1)]
      omega

/-- Titles of a list of UI elements, in order. -/
def titlesIn (books : List UIElement) : List String := books.map (·.text)

theorem runBooks_all_failure (outcome : UIElement → BookOutcome)
    (books : List UIElement) (stats : ExportStats)
    (h : ∀ b ∈ books, outcome b = .failure) :
    runBooks outcome books stats =
      ⟨stats.attempted + books.length, stats.successful,
       stats.failed + books.length, stats.failed_books ++ titlesIn books⟩ := by
  induction books generalizing stats with
  | nil => simp [runBooks, titlesIn]
  | cons b rest ih =>
      have hb : outcome b = .failure := h b (by simp)
      have hrest : ∀ x ∈ rest, outcome x = .failure := fun x hx => h x (by simp [hx])
      simp only [runBooks, List.foldl_cons] at *
      rw [ih _ hrest]
      simp [recordOutcome, hb, titlesIn]
      omega

/-- C5: for every item, the per-item export workflow is invoked at most
`retry_attempts` times; with `retry_attempts = 2` and a workflow that always
fails, the per-item function is invoked exactly 2 times and the item is then
recorded as failed by the run coordinator. -/
theorem C5_retry_bound (workflow : Nat → Bool) (retry_attempts : Nat) (b : UIElement) :
    (export_book_notes_with_retry workflow retry_attempts).2 ≤ retry_attempts ∧
    ((∀ i, workflow i = false) →
      export_book_notes_with_retry workflow 2 = (false, 2) ∧
      export_collection_notes true [b] (outcomeOfRetry workflow 2) =
        ⟨1, 0, 1, [b.text]⟩) := by
  constructor
  · simpa using retryLoop_count_le workflow retry_attempts 0
  · intro hw
    have h2 : export_book_notes_with_retry workflow 2 = (false, 2) := by
      simpa using retryLoop_all_false workflow hw 2 0
    refine ⟨h2, ?_⟩
    have hout : ∀ x ∈ [b], outcomeOfRetry workflow 2 x = BookOutcome.failure := by
      intro x _
      simp [outcomeOfRetry, h2]
    rw [export_collection_notes]
    simp only [if_true]
    rw [if_neg (by simp)]
    rw [runBooks_all_failure _ _ _ hout]
    simp [emptyStats, titlesIn]

/-- Closed instance of `C5_retry_bound` at a concrete always-failing
workflow and a concrete book. -/
theorem C5_retry_bound_witness :
    (export_book_notes_with_retry (fun _ => false) 2).2 ≤ 2 ∧
    (export_book_notes_with_retry (fun _ => false) 2 = (false, 2) ∧
      export_collection_notes true [⟨10, 20, "Book B"⟩]
        (outcomeOfRetry (fun _ => false) 2) = ⟨1, 0, 1, ["Book B"]⟩) :=
  ⟨(C5_retry_bound (fun _ => false) 2 ⟨10, 20, "Book B"⟩).1,
   (C5_retry_bound (fun _ => false) 2 ⟨10, 20, "Book B"⟩).2 (fun _ => rfl)⟩

/-- C10: with `retry_attempts = 0`, `export_book_notes_with_retry` returns
False without invoking the per-item workflow at all (invocation count 0), so
every enumerated item is recorded as failed by the coordinator. -/
theorem C10_zero_retries (workflow : Nat → Bool) (books : List UIElement) :
    export_book_notes_with_retry workflow 0 = (false, 0) ∧
    export_collection_notes true books (outcomeOfRetry workflow 0) =
      ⟨books.length, 0, books.length, titlesIn books⟩ := by
  have h0 : export_book_notes_with_retry workflow 0 = (false, 0) := rfl
  refine ⟨h0, ?_⟩
  have hout : ∀ x ∈ books, outcomeOfRetry workflow 0 x = BookOutcome.failure := by
    intro x _
    simp [outcomeOfRetry, h0]
  rw [export_collection_notes]
  simp only [if_true]
  by_cases hb : books.isEmpty = true
  · rw [if_pos hb]
    rw [List.isEmpty_iff] at hb
    simp [hb, emptyStats, titlesIn]
  · rw [if_neg hb]
    rw [runBooks_all_failure _ _ _ hout]
    simp [emptyStats]

/-- The Python truthiness test guarding the cap check in
`get_all_books_in_collection` (line 417): `if self.max_books and
len(all_books) >= self.max_books`.  `max_books` is `None` or an int, and an
int of 0 is falsy, so the cap is active only for a positive configured
maximum that has been reached. -/
def capHit (max_books : Option Nat) (n : Nat) : Bool :=
  match max_books with
  | none => false
  | some m => decide (0 < m) && decide (m ≤ n)

/-- The inner `for book in visible_books` loop of
`get_all_books_in_collection` (lines 410-419), processing one snapshot of
visible books: a book whose title is not yet in `seen` is appended to `all`
and its title to `seen`, setting the new-books flag; reaching the configured
cap returns `all_books[:max_books]` immediately (`Sum.inr`), otherwise the
loop finishes with the updated state (`Sum.inl`). -/
def addVisible (max_books : Option Nat) :
    List UIElement → List UIElement → List String → Bool →
    (List UIElement × List String × Bool) ⊕ List UIElement
  | [], all, seen, newFound => .inl (all, seen, newFound)
  | b :: rest, all, seen, newFound =>
      if b.text ∈ seen then addVisible max_books rest all seen newFound
      else if capHit max_books (all ++ [b]).length then
        .inr ((all ++ [b]).take (max_books.getD 0))
      else addVisible max_books rest (all ++ [b]) (seen ++ [b.text]) true

/-- The `while scroll_attempts < max_scroll_attempts` loop of
`get_all_books_in_collection` (lines 404-430).  `pages k` models the
`get_visible_books()` snapshot seen after `k` scroll gestures; `fuel` is the
number of loop iterations still allowed (`max_scroll_attempts -
scroll_attempts`), `scrolls` the scroll gestures issued so far.  Returns the
accumulated book list together with the total number of scroll gestures
issued. -/
def enumLoop (pages : Nat → List UIElement) (max_books : Option Nat) :
    Nat → Nat → List UIElement → List String → List UIElement × Nat
  | 0, scrolls, all, _seen => (all, scrolls)
  | Nat.succ fuel, scrolls, all, seen =>
      match addVisible max_books (pages scrolls) all seen false with
      | .inr capped => (capped, scrolls)
      | .inl (all2, seen2, newFound) =>
          if newFound then enumLoop pages max_books fuel (scrolls + 1) all2 seen2
          else (all2, scrolls)

/-- The hard iteration ceiling of `get_all_books_in_collection`
(line 402: `max_scroll_attempts = 50`). -/
def max_scroll_attempts : Nat := 50

/-- Model of `get_all_books_in_collection` (lines 392-433): scroll-and-
snapshot pagination starting from an empty accumulator and empty seen-title
set, bounded by `max_scroll_attempts`.  Returns the deduplicated book list
and the number of scroll gestures issued. -/
def get_all_books_in_collection (pages : Nat → List UIElement)
    (max_books : Option Nat) : List UIElement × Nat :=
  enumLoop pages max_books max_scroll_attempts 0 [] []

/-- Proof helper: the inner loop specialised to no configured maximum, where
the cap can never fire. -/
def addVisibleNone :
    List UIElement → List UIElement → List String → Bool →
    List UIElement × List String × Bool
  | [], all, seen, newFound => (all, seen, newFound)
  | b :: rest, all, seen, newFound =>
      if b.text ∈ seen then addVisibleNone rest all seen newFound
      else addVisibleNone rest (all ++ [b]) (seen ++ [b.text]) true

theorem addVisible_none_eq (v all : List UIElement) (seen : List String)
    (newFound : Bool) :
    addVisible none v all seen newFound = .inl (addVisibleNone v all seen newFound) := by
  induction v generalizing all seen newFound with
  | nil => rfl
  | cons b rest ih =>
      unfold addVisible addVisibleNone
      by_cases h : b.text ∈ seen
      · rw [if_pos h, if_pos h, ih]
      · rw [if_neg h, if_neg h]
        rw [if_neg (by simp [capHit])]
        exact ih _ _ _

theorem addVisibleNone_all_append (v all : List UIElement) (seen : List String)
    (newFound : Bool) :
    ∃ ext, (addVisibleNone v all seen newFound).1 = all ++ ext := by
  induction v generalizing all seen newFound with
  | nil => exact ⟨[], by simp [addVisibleNone]⟩
  | cons b rest ih =>
      unfold addVisibleNone
      by_cases h : b.text ∈ seen
      · rw [if_pos h]; exact ih all seen newFound
      · rw [if_neg h]
        obtain ⟨ext, hext⟩ := ih (all ++ [b]) (seen ++ [b.text]) true
        exact ⟨b :: ext, by simp [hext]⟩

theorem addVisibleNone_seen_mono (v all : List UIElement) (seen : List String)
    (newFound : Bool) (t : String) (ht : t ∈ seen) :
    t ∈ (addVisibleNone v all seen newFound).2.1 := by
  induction v generalizing all seen newFound with
  | nil => simpa [addVisibleNone] using ht
  | cons b rest ih =>
      unfold addVisibleNone
      by_cases h : b.text ∈ seen
      · rw [if_pos h]; exact ih all seen newFound ht
      · rw [if_neg h]
        exact ih (all ++ [b]) (seen ++ [b.text]) true (by simp [ht])

theorem addVisibleNone_seen_covers (v all : List UIElement) (seen : List String)
    (newFound : Bool) (b : UIElement) (hb : b ∈ v) :
    b.text ∈ (addVisibleNone v all seen newFound).2.1 := by
  induction v generalizing all seen newFound with
  | nil => cases hb
  | cons c rest ih =>
      unfold addVisibleNone
      rcases List.mem_cons.mp hb with hbc | hbrest
      · subst hbc
        by_cases h : b.text ∈ seen
        · rw [if_pos h]; exact addVisibleNone_seen_mono rest all seen newFound _ h
        · rw [if_neg h]
          exact addVisibleNone_seen_mono rest (all ++ [b]) (seen ++ [b.text]) true _
            (by simp)
      · by_cases h : c.text ∈ seen
        · rw [if_pos h]; exact ih all seen newFound hbrest
        · rw [if_neg h]; exact ih (all ++ [c]) (seen ++ [c.text]) true hbrest

theorem addVisibleNone_no_new (v all : List UIElement) (seen : List String)
    (newFound : Bool) (h : ∀ b ∈ v, b.text ∈ seen) :
    addVisibleNone v all seen newFound = (all, seen, newFound) := by
  induction v with
  | nil => rfl
  | cons b rest ih =>
      unfold addVisibleNone
      rw [if_pos (h b (by simp))]
      exact ih fun x hx => h x (by simp [hx])

theorem enumLoop_scrolls_le (pages : Nat → List UIElement) (max_books : Option Nat)
    (fuel scrolls : Nat) (all : List UIElement) (seen : List String) :
    (enumLoop pages max_books fuel scrolls all seen).2 ≤ scrolls + fuel := by
  induction fuel generalizing scrolls all seen with
  | zero => simp [enumLoop]
  | succ n ih =>
      unfold enumLoop
      cases h : addVisible max_books (pages scrolls) all seen false with
      | inr capped => simp
      | inl r =>
          obtain ⟨all2, seen2, nf⟩ := r
          cases nf with
          | true =>
              simp only [if_true]
              have := ih (scrolls + 1) all2 seen2
              omega
          | false => simp

theorem enumLoop_scrolls_ge (pages : Nat → List UIElement) (max_books : Option Nat)
    (fuel scrolls : Nat) (all : List UIElement) (seen : List String) :
    scrolls ≤ (enumLoop pages max_books fuel scrolls all seen).2 := by
  induction fuel generalizing scrolls all seen with
  | zero => simp [enumLoop]
  | succ n ih =>
      unfold enumLoop
      cases h : addVisible max_books (pages scrolls) all seen false with
      | inr capped => simp
      | inl r =>
          obtain ⟨all2, seen2, nf⟩ := r
          cases nf with
          | true =>
              simp only [if_true]
              have := ih (scrolls + 1) all2 seen2
              omega
          | false => simp

theorem enumLoop_stops_no_new (pages : Nat → List UIElement) (k : Nat)
    (fuel scrolls : Nat) (all : List UIElement) (seen : List String)
    (hsk : scrolls ≤ k)
    (hinv : ∀ b ∈ pages k, b.text ∈ seen ∨
      ∃ j, scrolls ≤ j ∧ j < k ∧ b.text ∈ titlesIn (pages j)) :
    (enumLoop pages none fuel scrolls all seen).2 ≤ k := by
  induction fuel generalizing scrolls all seen with
  | zero => simpa [enumLoop] using hsk
  | succ n ih =>
      unfold enumLoop
      rw [addVisible_none_eq]
      rcases Nat.lt_or_ge scrolls k with hlt | hge
      · cases hnf : (addVisibleNone (pages scrolls) all seen false).2.2 with
        | false =>
            cases hr : addVisibleNone (pages scrolls) all seen false with
            | mk all2 s2 =>
                obtain ⟨seen2, nf⟩ := s2
                rw [hr] at hnf
                simp only at hnf
                subst hnf
                simpa using hsk
        | true =>
            cases hr : addVisibleNone (pages scrolls) all seen false with
            | mk all2 s2 =>
                obtain ⟨seen2, nf⟩ := s2
                rw [hr] at hnf
                simp only at hnf
                subst hnf
                simp only [if_true]
                refine ih (scrolls + 1) all2 seen2 hlt ?_
                intro b hb
                rcases hinv b hb with hseen | ⟨j, hj1, hj2, hj3⟩
                · left
                  have := addVisibleNone_seen_mono (pages scrolls) all seen false b.text hseen
                  rw [hr] at this
                  exact this
                · rcases Nat.eq_or_lt_of_le hj1 with hjeq | hjgt
                  · left
                    subst hjeq
                    obtain ⟨b', hb', hb'eq⟩ := List.mem_map.mp hj3
                    have := addVisibleNone_seen_covers (pages scrolls) all seen false b' hb'
                    rw [hr] at this
                    simpa [hb'eq] using this
                  · exact Or.inr ⟨j, hjgt, hj2, hj3⟩
      · have hk : scrolls = k := Nat.le_antisymm hsk hge
        subst hk
        have hall : ∀ b ∈ pages scrolls, b.text ∈ seen := by
          intro b hb
          rcases hinv b hb with hseen | ⟨j, hj1, hj2, _⟩
          · exact hseen
          · omega
        rw [addVisibleNone_no_new (pages scrolls) all seen false hall]
        simp

/-- Helper stream for witnesses: four pages with one fresh title each, then
only empty pages (the UI stops producing new titles after page 4). -/
def pages4 : Nat → List UIElement := fun j =>
  if j = 0 then [⟨100, 200, "t0"⟩]
  else if j = 1 then [⟨100, 300, "t1"⟩]
  else if j = 2 then [⟨100, 400, "t2"⟩]
  else if j = 3 then [⟨100, 500, "t3"⟩]
  else []

/-- C6: enumeration terminates for every UI stream: at most
`max_scroll_attempts = 50` scroll gestures are ever issued (for any
configured maximum), and as soon as a scroll-iteration can add no new title
(every title of page `k` already appeared on an earlier page), the loop
stops with at most `k` scroll gestures issued — it does not run on to the
iteration ceiling. -/
theorem C6_termination :
    (∀ (pages : Nat → List UIElement) (max_books : Option Nat),
      (get_all_books_in_collection pages max_books).2 ≤ max_scroll_attempts) ∧
    (∀ (pages : Nat → List UIElement) (k : Nat),
      (∀ b ∈ pages k, ∃ j, j < k ∧ b.text ∈ titlesIn (pages j)) →
      (get_all_books_in_collection pages none).2 ≤ k) := by
  constructor
  · intro pages mb
    simpa [get_all_books_in_collection] using
      enumLoop_scrolls_le pages mb max_scroll_attempts 0 [] []
  · intro pages k h
    refine enumLoop_stops_no_new pages k max_scroll_attempts 0 [] [] (Nat.zero_le k) ?_
    intro b hb
    obtain ⟨j, hj1, hj2⟩ := h b hb
    exact Or.inr ⟨j, Nat.zero_le j, hj1, hj2⟩

/-- Closed instance of `C6_termination`: on the stream `pages4`, which stops
producing new titles after page 4, enumeration issues at most 4 scroll
gestures (and in any case at most 50). -/
theorem C6_termination_witness :
    (get_all_books_in_collection pages4 none).2 ≤ max_scroll_attempts ∧
    (get_all_books_in_collection pages4 none).2 ≤ 4 :=
  ⟨C6_termination.1 pages4 none,
   C6_termination.2 pages4 4 (by intro b hb; simp [pages4] at hb)⟩

/-- Accumulator invariant of the enumeration loop: the accumulated titles
are pairwise distinct and every accumulated title is in the seen set. -/
def enumInv (all : List UIElement) (seen : List String) : Prop :=
  (titlesIn all).Nodup ∧ ∀ t ∈ titlesIn all, t ∈ seen

theorem addVisible_nodup (max_books : Option Nat) (v all : List UIElement)
    (seen : List String) (nf : Bool) (h : enumInv all seen) :
    (∀ r, addVisible max_books v all seen nf = .inl r → enumInv r.1 r.2.1) ∧
    (∀ capped, addVisible max_books v all seen nf = .inr capped →
      (titlesIn capped).Nodup) := by
  induction v generalizing all seen nf with
  | nil =>
      constructor
      · intro r hr
        simp only [addVisible] at hr
        cases hr
        exact h
      · intro capped hc
        simp only [addVisible] at hc
        exact absurd hc (by simp)
  | cons b rest ih =>
      by_cases hmem : b.text ∈ seen
      · constructor
        · intro r hr
          unfold addVisible at hr
          rw [if_pos hmem] at hr
          exact (ih all seen nf h).1 r hr
        · intro capped hc
          unfold addVisible at hc
          rw [if_pos hmem] at hc
          exact (ih all seen nf h).2 capped hc
      · have hnotall : b.text ∉ titlesIn all := fun hx => hmem (h.2 _ hx)
        have hinv2 : enumInv (all ++ [b]) (seen ++ [b.text]) := by
          constructor
          · have heq : titlesIn (all ++ [b]) = titlesIn all ++ [b.text] := by
              simp [titlesIn]
            rw [heq, List.nodup_append]
            refine ⟨h.1, List.nodup_singleton _, ?_⟩
            intro t ht1 ht2
            simp only [List.mem_singleton] at ht2
            exact hnotall (ht2 ▸ ht1)
          · intro t ht
            simp only [titlesIn, List.map_append, List.map_cons, List.map_nil,
              List.mem_append, List.mem_singleton] at ht
            rcases ht with ht | ht
            · exact List.mem_append_left _ (h.2 t ht)
            · simp [ht]
        constructor
        · intro r hr
          unfold addVisible at hr
          rw [if_neg hmem] at hr
          by_cases hcap : capHit max_books (all ++ [b]).length = true
          · rw [if_pos hcap] at hr
            cases hr
          · rw [if_neg hcap] at hr
            exact (ih _ _ true hinv2).1 r hr
        · intro capped hc
          unfold addVisible at hc
          rw [if_neg hmem] at hc
          by_cases hcap : capHit max_books (all ++ [b]).length = true
          · rw [if_pos hcap] at hc
            cases hc
            have hsub : List.Sublist (titlesIn ((all ++ [b]).take (max_books.getD 0)))
                (titlesIn (all ++ [b])) := by
              simpa [titlesIn, List.map_take] using
                List.take_sublist (max_books.getD 0) (titlesIn (all ++ [b]))
            exact hinv2.1.sublist hsub
          · rw [if_neg hcap] at hc
            exact (ih _ _ true hinv2).2 capped hc

theorem enumLoop_nodup (pages : Nat → List UIElement) (max_books : Option Nat)
    (fuel scrolls : Nat) (all : List UIElement) (seen : List String)
    (h : enumInv all seen) :
    (titlesIn (enumLoop pages max_books fuel scrolls all seen).1).Nodup := by
  induction fuel generalizing scrolls all seen with
  | zero => simpa [enumLoop] using h.1
  | succ n ih =>
      unfold enumLoop
      cases hav : addVisible max_books (pages scrolls) all seen false with
      | inr capped =>
          exact (addVisible_nodup max_books (pages scrolls) all seen false h).2 capped hav
      | inl r =>
          obtain ⟨all2, seen2, nf⟩ := r
          have hinv2 : enumInv all2 seen2 :=
            (addVisible_nodup max_books (pages scrolls) all seen false h).1
              (all2, seen2, nf) hav
          cases nf with
          | true =>
              simp only [if_true]
              exact ih (scrolls + 1) all2 seen2 hinv2
          | false => simpa using hinv2.1

/-- Helper stream for C3: the same three titles are shown on two consecutive
pages (simulating scroll-back), then nothing. -/
def pages3 : Nat → List UIElement := fun j =>
  if j < 2 then [⟨100, 200, "A"⟩, ⟨100, 300, "B"⟩, ⟨100, 400, "C"⟩] else []

/-- C3: enumeration deduplicates by display title: for every UI stream and
configuration, each title occurs at most once in the returned list (the
title list is Nodup); in particular the stream `pages3`, which shows the
same three titles on two consecutive pages, yields exactly 3 items. -/
theorem C3_dedup :
    (∀ (pages : Nat → List UIElement) (max_books : Option Nat),
      (titlesIn (get_all_books_in_collection pages max_books).1).Nodup) ∧
    (get_all_books_in_collection pages3 none).1.length = 3 := by
  constructor
  · intro pages mb
    exact enumLoop_nodup pages mb max_scroll_attempts 0 [] [] ⟨by simp [titlesIn], by simp [titlesIn]⟩
  · rfl

theorem addVisible_cap_lt (m : Nat) (v all : List UIElement) (seen : List String)
    (nf : Bool) (hall : all.length < m)
    (hlt : (addVisibleNone v all seen nf).1.length < m) :
    addVisible (some m) v all seen nf = .inl (addVisibleNone v all seen nf) := by
  induction v generalizing all seen nf with
  | nil => rfl
  | cons b rest ih =>
      unfold addVisible addVisibleNone
      unfold addVisibleNone at hlt
      by_cases hmem : b.text ∈ seen
      · simp only [if_pos hmem] at hlt ⊢
        exact ih all seen nf hall hlt
      · simp only [if_neg hmem] at hlt ⊢
        have hall2 : (all ++ [b]).length < m := by
          obtain ⟨ext, hext⟩ :=
            addVisibleNone_all_append rest (all ++ [b]) (seen ++ [b.text]) true
          rw [hext] at hlt
          simp only [List.length_append, List.length_cons, List.length_nil] at hlt ⊢
          omega
        have hcap : capHit (some m) (all ++ [b]).length = false := by
          simp only [capHit, Bool.and_eq_false_iff, decide_eq_false_iff_not]
          right
          omega
        rw [hcap]
        simp only [Bool.false_eq_true, if_false]
        exact ih (all ++ [b]) (seen ++ [b.text]) true hall2 hlt

theorem addVisible_cap_ge (m : Nat) (hm : 0 < m) (v all : List UIElement)
    (seen : List String) (nf : Bool) (hall : all.length < m)
    (hge : m ≤ (addVisibleNone v all seen nf).1.length) :
    addVisible (some m) v all seen nf =
      .inr ((addVisibleNone v all seen nf).1.take m) := by
  induction v generalizing all seen nf with
  | nil =>
      exfalso
      simp only [addVisibleNone] at hge
      omega
  | cons b rest ih =>
      unfold addVisible addVisibleNone
      unfold addVisibleNone at hge
      by_cases hmem : b.text ∈ seen
      · simp only [if_pos hmem] at hge ⊢
        exact ih all seen nf hall hge
      · simp only [if_neg hmem] at hge ⊢
        by_cases hfull : m = (all ++ [b]).length
        · have hcap : capHit (some m) (all ++ [b]).length = true := by
            simp only [capHit, Bool.and_eq_true, decide_eq_true_eq]
            omega
          rw [hcap]
          simp only [if_true, Option.getD_some]
          obtain ⟨ext, hext⟩ :=
            addVisibleNone_all_append rest (all ++ [b]) (seen ++ [b.text]) true
          rw [hext, hfull, List.take_left, List.take_length]
        · have hall2 : (all ++ [b]).length < m := by
            have hle : (all ++ [b]).length ≤ m := by
              simp only [List.length_append, List.length_cons, List.length_nil] at hall ⊢
              omega
            omega
          have hcap : capHit (some m) (all ++ [b]).length = false := by
            simp only [capHit, Bool.and_eq_false_iff, decide_eq_false_iff_not]
            right
            omega
          rw [hcap]
          simp only [Bool.false_eq_true, if_false]
          exact ih (all ++ [b]) (seen ++ [b.text]) true hall2 hge

theorem enumLoop_cap (pages : Nat → List UIElement) (m : Nat) (hm : 0 < m)
    (fuel scrolls : Nat) (all : List UIElement) (seen : List String)
    (hall : all.length < m)
    (hge : m ≤ (enumLoop pages none fuel scrolls all seen).1.length) :
    (enumLoop pages (some m) fuel scrolls all seen).1.length = m ∧
    (enumLoop pages (some m) fuel scrolls all seen).2 ≤
      (enumLoop pages none fuel scrolls all seen).2 := by
  induction fuel generalizing scrolls all seen with
  | zero =>
      exfalso
      simp only [enumLoop] at hge
      omega
  | succ n ih =>
      have hstepN := addVisible_none_eq (pages scrolls) all seen false
      cases hr : addVisibleNone (pages scrolls) all seen false with
      | mk all2 s2 =>
          obtain ⟨seen2, nf⟩ := s2
          rw [hr] at hstepN
          rcases Nat.lt_or_ge all2.length m with hlt | hge2
          · have hstep := addVisible_cap_lt m (pages scrolls) all seen false hall
              (by rw [hr]; exact hlt)
            rw [hr] at hstep
            unfold enumLoop at hge ⊢
            rw [hstepN] at hge
            rw [hstep, hstepN]
            cases nf with
            | false =>
                exfalso
                simp only [Bool.false_eq_true, if_false] at hge
                omega
            | true =>
                simp only [if_true] at hge ⊢
                exact ih (scrolls + 1) all2 seen2 hlt hge
          · have hstep := addVisible_cap_ge m hm (pages scrolls) all seen false hall
              (by rw [hr]; exact hge2)
            rw [hr] at hstep
            unfold enumLoop at hge ⊢
            rw [hstepN] at hge
            rw [hstep, hstepN]
            constructor
            · show (all2.take m).length = m
              rw [List.length_take]
              omega
            · show scrolls ≤ _
              cases nf with
              | false => simp
              | true =>
                  simp only [if_true]
                  have := enumLoop_scrolls_ge pages none n (scrolls + 1) all2 seen2
                  omega

/-- Helper stream for C4: five distinct discoverable items, all on the first
page, then nothing. -/
def pages5 : Nat → List UIElement := fun j =>
  if j = 0 then
    [⟨100, 200, "b1"⟩, ⟨100, 300, "b2"⟩, ⟨100, 400, "b3"⟩,
     ⟨100, 500, "b4"⟩, ⟨100, 600, "b5"⟩]
  else []

/-- C4: with a positive maximum item count `m` configured, enumeration
returns exactly `m` items whenever at least `m` distinct titles are
discoverable (the uncapped enumeration finds at least `m`), and issues no
scroll gesture beyond those of the uncapped run; on the stream `pages5`
(5 discoverable items) with `max_books = 2` it returns exactly 2 items and
issues no scroll gesture at all. -/
theorem C4_max_items :
    (∀ (pages : Nat → List UIElement) (m : Nat), 0 < m →
      m ≤ (get_all_books_in_collection pages none).1.length →
      (get_all_books_in_collection pages (some m)).1.length = m ∧
      (get_all_books_in_collection pages (some m)).2 ≤
        (get_all_books_in_collection pages none).2) ∧
    ((get_all_books_in_collection pages5 (some 2)).1.length = 2 ∧
     (get_all_books_in_collection pages5 (some 2)).2 = 0) := by
  constructor
  · intro pages m hm hge
    exact enumLoop_cap pages m hm max_scroll_attempts 0 [] [] hm hge
  · constructor <;> rfl

/-- Closed instance of `C4_max_items` at the concrete stream `pages5` with
`max_books = 2`. -/
theorem C4_max_items_witness :
    (get_all_books_in_collection pages5 (some 2)).1.length = 2 ∧
    (get_all_books_in_collection pages5 (some 2)).2 ≤
      (get_all_books_in_collection pages5 none).2 :=
  C4_max_items.1 pages5 2 (by decide) (by decide)

/-- The candidate citation-style labels probed by `_select_export_notebook`
(lines 654-659), in probe order. -/
def citation_styles : List String := ["None", "APA", "Chicago Style", "MLA"]

/-- Model of `_select_export_notebook` (lines 646-684).  A static UI state
is a function `visible` giving the elements found for a given text (both
`wait_for_text` and `find_elements_by_text` query it).  The Python
`for style in citation_styles ... break / else` is the `find?`; when no
citation style is on screen the stage succeeds only if "OneDrive" is already
visible (share sheet reached), otherwise it fails; when the dialog is
present it succeeds exactly when a "None" element can be located (which is
then tapped). -/
def select_export_notebook (visible : String → List UIElement) : Bool :=
  match citation_styles.find? (fun s => !(visible s).isEmpty) with
  | some _ =>
      if !(visible "None").isEmpty then
        match visible "None" with
        | [] => false
        | _ :: _ => true
      else false
  | none =>
      if !(visible "OneDrive").isEmpty then true
      else false

/-- The UI state in which nothing at all is on screen. -/
def emptyUI : String → List UIElement := fun _ => []

/-- C7 counterexample: in the UI state where the format-selection prompt is
absent (no citation-style label visible) and no "OneDrive" text is visible
either, `_select_export_notebook` reports failure, refuting the claim that
every prompt-absent state is treated as an idempotent successful skip. -/
theorem C7_counterexample :
    (citation_styles.all fun s => (emptyUI s).isEmpty) = true ∧
    select_export_notebook emptyUI = false := by
  constructor <;> rfl

/-- C7 (amended): if the format-selection prompt appears (some citation
style is visible), the stage succeeds exactly when the "no formatting"
option ("None") can be located, and it is then selected; if the prompt is
absent, the stage succeeds exactly when the share sheet is already visible
("OneDrive" present) — otherwise it reports failure. -/
theorem C7_format_stage (visible : String → List UIElement) :
    select_export_notebook visible =
      ((citation_styles.any fun s => !(visible s).isEmpty) &&
          !(visible "None").isEmpty ||
        !(citation_styles.any fun s => !(visible s).isEmpty) &&
          !(visible "OneDrive").isEmpty) := by
  unfold select_export_notebook
  cases hfind : citation_styles.find? (fun s => !(visible s).isEmpty) with
  | none =>
      have hany : (citation_styles.any fun s => !(visible s).isEmpty) = false := by
        rw [List.any_eq_false]
        intro s hs
        simpa using List.find?_eq_none.mp hfind s hs
      rw [hany]
      by_cases h1 : (visible "OneDrive").isEmpty = true <;> simp [h1]
  | some s =>
      have hp := List.find?_some hfind
      have hany : (citation_styles.any fun s => !(visible s).isEmpty) = true := by
        rw [List.any_eq_true]
        exact ⟨s, List.mem_of_find?_eq_some hfind, hp⟩
      rw [hany]
      by_cases h1 : (visible "None").isEmpty = true
      · simp [h1]
      · rw [if_pos (by simp [h1])]
        cases hv : visible "None" with
        | nil => simp [hv] at h1
        | cons e es => simp [h1]

/-- UI state in which exactly the citation dialog's "None" option is
visible. -/
def noneOnlyUI : String → List UIElement := fun t =>
  if t = "None" then [⟨540, 1200, "None"⟩] else []

/-- Closed instance of `C7_format_stage` at the UI state `noneOnlyUI`: with
the citation dialog (including its "None" option) on screen the stage
succeeds, matching the right-hand characterisation. -/
theorem C7_format_stage_witness :
    select_export_notebook noneOnlyUI =
      ((citation_styles.any fun s => !(noneOnlyUI s).isEmpty) &&
          !(noneOnlyUI "None").isEmpty ||
        !(citation_styles.any fun s => !(noneOnlyUI s).isEmpty) &&
          !(noneOnlyUI "OneDrive").isEmpty) :=
  C7_format_stage noneOnlyUI

/-- The candidate confirmation labels probed by `_confirm_onedrive_upload`
(lines 737-744), in probe order. -/
def confirm_options : List String := ["Save", "Upload", "Add", "Done", "OK", "Confirm"]

/-- The `for option in confirm_options` loop of `_confirm_onedrive_upload`
(lines 746-755): `wait` models `wait_for_text`, `find` models
`find_elements_by_text`.  A found option with at least one element is tapped
(rightmost first) and the stage returns True; if no option is confirmed the
code falls through to tapping the fixed top-right coordinate (980, 150) and
returns True anyway (lines 757-763). -/
def confirmLoop (wait : String → Bool) (find : String → List UIElement) :
    List String → Bool
  | [] => true
  | o :: rest =>
      if wait o then
        match find o with
        | [] => confirmLoop wait find rest
        | _ :: _ => true
      else confirmLoop wait find rest

/-- Model of `_confirm_onedrive_upload` (lines 729-763). -/
def confirm_onedrive_upload (wait : String → Bool) (find : String → List UIElement) :
    Bool :=
  confirmLoop wait find confirm_options

theorem confirmLoop_true (wait : String → Bool) (find : String → List UIElement)
    (opts : List String) : confirmLoop wait find opts = true := by
  induction opts with
  | nil => rfl
  | cons o rest ih =>
      unfold confirmLoop
      by_cases hw : wait o = true
      · rw [if_pos hw]
        cases find o <;> simp [ih]
      · rw [if_neg hw]
        exact ih

/-- C9: `_confirm_onedrive_upload` returns True for every possible UI state
(any combination of `wait_for_text` and `find_elements_by_text` results):
if no confirmation button is found it falls back to tapping the fixed
top-right coordinate and still reports success, so this stage can never by
itself record an item as failed. -/
theorem C9_confirm_always_true (wait : String → Bool)
    (find : String → List UIElement) :
    confirm_onedrive_upload wait find = true :=
  confirmLoop_true wait find confirm_options

/-- Character-list prefix test (model of Python string matching used for the
substring operator `in`). -/
def charsStartWith : List Char → List Char → Bool
  | [], _ => true
  | _ :: _, [] => false
  | a :: as, b :: bs => a == b && charsStartWith as bs

/-- Character-list substring test: `needle` occurs contiguously in the
second argument. -/
def charsContain (needle : List Char) : List Char → Bool
  | [] => charsStartWith needle []
  | c :: rest => charsStartWith needle (c :: rest) || charsContain needle rest

/-- Model of the Python substring operator `needle in hay` on strings. -/
def containsSub (hay needle : String) : Bool := charsContain needle.data hay.data

/-- Whitespace as removed by Python's `str.strip()`. -/
def isSpaceChar (c : Char) : Bool :=
  c == ' ' || c == '\t' || c == '\n' || c == '\r'

/-- Model of Python's `str.strip()`: drop whitespace from both ends. -/
def strStrip (s : String) : String :=
  ⟨((s.data.dropWhile isSpaceChar).reverse.dropWhile isSpaceChar).reverse⟩

/-- Model of Python's `str.lower()`: lowercase every character. -/
def strLower (s : String) : String := ⟨s.data.map Char.toLower⟩

/-- Screen bounds of a UI node, as parsed by `parse_bounds`
(lines 252-259) from the `bounds="[x1,y1][x2,y2]"` attribute; the regex
digits are non-negative. -/
structure Bounds where
  x1 : Nat
  y1 : Nat
  x2 : Nat
  y2 : Nat
deriving DecidableEq, Repr

/-- A node of the parsed UI dump as inspected by the collection-resolution
loop of `navigate_to_collection` (lines 264-278): its class attribute, its
accessible label (`content-desc`), and its bounds when they parse. -/
structure UINode where
  className : String
  contentDesc : String
  bounds : Option Bounds
deriving DecidableEq, Repr

/-- An entry of `collection_nodes` (line 278): the tuple
`(center_y, center_x, x1, y1, x2, y2, desc)` with the bounds kept
structured. -/
structure CollectionCard where
  centerY : Nat
  centerX : Nat
  bounds : Bounds
  desc : String
deriving DecidableEq, Repr

/-- The candidate-collection filter of `navigate_to_collection`
(lines 261-278): keep nodes of class `android.widget.Button` whose stripped
`content-desc` contains the collection name case-insensitively and whose
bounds parse, recording the tap centre (integer midpoint of the bounds). -/
def collectionCandidates (collection_name : String) (nodes : List UINode) :
    List CollectionCard :=
  nodes.filterMap fun n =>
    if n.className = "android.widget.Button" then
      if containsSub (strLower (strStrip n.contentDesc)) (strLower collection_name) then
        match n.bounds with
        | some bd =>
            some ⟨(bd.y1 + bd.y2) / 2, (bd.x1 + bd.x2) / 2, bd, strStrip n.contentDesc⟩
        | none => none
      else none
    else none

/-- Stable insertion of a card into a list sorted by `centerY` (the earlier
card goes first among equal keys, matching Python's stable `sort` with
`key=lambda item: item[0]`). -/
def insertByY (c : CollectionCard) : List CollectionCard → List CollectionCard
  | [] => [c]
  | d :: rest =>
      if c.centerY ≤ d.centerY then c :: d :: rest else d :: insertByY c rest

/-- Stable sort of candidate cards by vertical centre (line 293). -/
def sortByY : List CollectionCard → List CollectionCard
  | [] => []
  | c :: rest => insertByY c (sortByY rest)

/-- Model of the collection-resolution part of `navigate_to_collection`
(lines 261-310): filter candidates, sort by vertical position, tap the
topmost card's centre; `none` models the `return False` when no candidate
exists (lines 284-290). -/
def navigate_to_collection (collection_name : String) (nodes : List UINode) :
    Option (Nat × Nat) :=
  match sortByY (collectionCandidates collection_name nodes) with
  | [] => none
  | c :: _ => some (c.centerX, c.centerY)

theorem insertByY_ne_nil (c : CollectionCard) (l : List CollectionCard) :
    insertByY c l ≠ [] := by
  cases l with
  | nil => simp [insertByY]
  | cons d rest =>
      unfold insertByY
      by_cases h : c.centerY ≤ d.centerY
      · rw [if_pos h]; simp
      · rw [if_neg h]; simp

theorem sortByY_eq_nil (l : List CollectionCard) (h : sortByY l = []) : l = [] := by
  cases l with
  | nil => rfl
  | cons c rest =>
      exfalso
      exact insertByY_ne_nil c (sortByY rest) (by simpa [sortByY] using h)

theorem sortByY_head_min (l : List CollectionCard) (c : CollectionCard)
    (rest : List CollectionCard) (h : sortByY l = c :: rest) :
    c ∈ l ∧ ∀ d ∈ l, c.centerY ≤ d.centerY := by
  induction l generalizing c rest with
  | nil => simp [sortByY] at h
  | cons a t ih =>
      rw [sortByY] at h
      cases ht : sortByY t with
      | nil =>
          have htnil : t = [] := sortByY_eq_nil t ht
          rw [ht] at h
          simp only [insertByY] at h
          obtain ⟨rfl, -⟩ := List.cons.injEq .. ▸ h
          subst htnil
          refine ⟨by simp, ?_⟩
          intro d hd
          simp only [List.mem_singleton] at hd
          simp [hd]
      | cons d ds =>
          rw [ht] at h
          have ihd := ih d ds ht
          unfold insertByY at h
          by_cases hle : a.centerY ≤ d.centerY
          · rw [if_pos hle] at h
            obtain ⟨rfl, -⟩ := List.cons.injEq .. ▸ h
            refine ⟨by simp, ?_⟩
            intro x hx
            rcases List.mem_cons.mp hx with rfl | hxt
            · exact Nat.le_refl _
            · exact Nat.le_trans hle (ihd.2 x hxt)
          · rw [if_neg hle] at h
            obtain ⟨rfl, -⟩ := List.cons.injEq .. ▸ h
            refine ⟨List.mem_cons_of_mem a ihd.1, ?_⟩
            intro x hx
            rcases List.mem_cons.mp hx with rfl | hxt
            · omega
            · exact ihd.2 x hxt

/-- C8: collection resolution selects among `android.widget.Button` nodes
whose stripped accessible label contains the target collection name as a
case-insensitive substring (with parseable bounds); it fails exactly when
no such candidate exists, and otherwise deterministically taps the centre
of a matching candidate whose vertical centre is minimal (topmost). -/
theorem C8_collection_resolution (collection_name : String) (nodes : List UINode) :
    (navigate_to_collection collection_name nodes = none ↔
      collectionCandidates collection_name nodes = []) ∧
    (∀ p, navigate_to_collection collection_name nodes = some p →
      ∃ c ∈ collectionCandidates collection_name nodes,
        p = (c.centerX, c.centerY) ∧
        ∀ d ∈ collectionCandidates collection_name nodes,
          c.centerY ≤ d.centerY) := by
  unfold navigate_to_collection
  cases hs : sortByY (collectionCandidates collection_name nodes) with
  | nil =>
      refine ⟨⟨fun _ => sortByY_eq_nil _ hs, fun _ => rfl⟩, ?_⟩
      intro p hp
      cases hp
  | cons c rest =>
      have hmin := sortByY_head_min _ c rest hs
      constructor
      · constructor
        · intro hnone
          cases hnone
        · intro hnil
          rw [hnil] at hmin
          cases hmin.1
      · intro p hp
        obtain ⟨rfl⟩ := Option.some.injEq .. ▸ hp
        exact ⟨c, hmin.1, rfl, hmin.2⟩

/-- Concrete parsed UI dump for witnesses: several Button cards, two of
which contain the collection name "To Export" case-insensitively, at
different vertical positions. -/
def demoNodes : List UINode :=
  [⟨"android.widget.TextView", "To Export", some ⟨0, 0, 100, 50⟩⟩,
   ⟨"android.widget.Button", "Collection To Export, 5 books", some ⟨0, 600, 1080, 900⟩⟩,
   ⟨"android.widget.Button", " to export duplicate ", some ⟨0, 100, 1080, 400⟩⟩,
   ⟨"android.widget.Button", "Other Collection", some ⟨0, 1000, 1080, 1300⟩⟩]

/-- Closed instance of `C8_collection_resolution`: on `demoNodes` the
resolved tap target is the topmost matching Button card (centre
(540, 250)). -/
theorem C8_collection_resolution_witness :
    ∃ c ∈ collectionCandidates "To Export" demoNodes,
      ((540, 250) : Nat × Nat) = (c.centerX, c.centerY) ∧
      ∀ d ∈ collectionCandidates "To Export" demoNodes, c.centerY ≤ d.centerY :=
  (C8_collection_resolution "To Export" demoNodes).2 (540, 250) (by decide)

/-- Errors a run could surface to its caller by raising.  The specification
names a `NavigationError`; the source defines no such exception. -/
inductive RunError where
  | navigationError
deriving DecidableEq, Repr

/-- Observable result of a whole `export_collection_notes` call: either an
exception propagates to the caller (`raised`) or the statistics dictionary
is returned (`returned`). -/
inductive RunResult where
  | raised (e : RunError)
  | returned (stats : ExportStats)
deriving DecidableEq, Repr

/-- Model of a full `export_collection_notes` run (lines 796-883) including
collection resolution: when `navigate_to_collection` returns False the
function logs an error and returns the freshly reset (empty) statistics
(lines 816-818) — it raises nothing; otherwise the books enumerated from the
UI stream are processed as in `export_collection_notes`. -/
def export_collection_notes_run (collection_name : String) (nodes : List UINode)
    (pages : Nat → List UIElement) (max_books : Option Nat)
    (outcome : UIElement → BookOutcome) : RunResult :=
  match navigate_to_collection collection_name nodes with
  | none => .returned emptyStats
  | some _ =>
      .returned (export_collection_notes true
        (get_all_books_in_collection pages max_books).1 outcome)

/-- C2 counterexample: on a UI dump with no matching collection card the run
does not raise any `NavigationError` — it returns normally with the empty
statistics (`attempted == 0`), refuting the claim's "raises
`NavigationError`" part (its `attempted == 0` part does hold). -/
theorem C2_counterexample :
    export_collection_notes_run "To Export" [] pages3 none (fun _ => BookOutcome.success) =
      RunResult.returned emptyStats ∧
    RunResult.returned emptyStats ≠ RunResult.raised RunError.navigationError ∧
    emptyStats.attempted = 0 := by
  refine ⟨rfl, ?_, rfl⟩
  decide

/-- C2 (amended): when collection resolution cannot find the named
collection (no Button card whose accessible label contains the collection
name), `navigate_to_collection` reports failure and the run returns
immediately with the empty statistics — `attempted == 0` and no items are
processed; no exception is raised. -/
theorem C2_nav_failure (collection_name : String) (nodes : List UINode)
    (pages : Nat → List UIElement) (max_books : Option Nat)
    (outcome : UIElement → BookOutcome)
    (h : collectionCandidates collection_name nodes = []) :
    export_collection_notes_run collection_name nodes pages max_books outcome =
      RunResult.returned emptyStats ∧
    emptyStats.attempted = 0 := by
  have hnav : navigate_to_collection collection_name nodes = none := by
    unfold navigate_to_collection
    rw [h]
    rfl
  unfold export_collection_notes_run
  rw [hnav]
  exact ⟨rfl, rfl⟩

/-- Closed instance of `C2_nav_failure`: the dump `demoNodes` has no card
matching "Missing Collection", so that run returns the empty statistics. -/
theorem C2_nav_failure_witness :
    export_collection_notes_run "Missing Collection" demoNodes pages3 none
        (fun _ => BookOutcome.success) = RunResult.returned emptyStats ∧
    emptyStats.attempted = 0 :=
  C2_nav_failure "Missing Collection" demoNodes pages3 none
    (fun _ => BookOutcome.success) (by decide)

end NoteHammer
